import Mathlib

/-!
Verification of the pool-rebalance settlement core (`PoolRebalanceUtils.ts` and its
data model) of the cross-chain relayer repository.

Embedding conventions:
* JavaScript `BigNumber` values are arbitrary-precision signed integers, embedded as `Int`.
* Chain ids and token addresses are embedded as `Nat` (the source sorts chain ids
  numerically and token addresses in ascending address order).
* A JavaScript object used as a dictionary is embedded as an association list whose
  key list has no duplicates (a JS object cannot hold the same key twice); property
  access `obj[k]` becomes a first-match lookup returning `Option`.
* External collaborators that the source consumes through clients
  (`hubPoolClient.getL1TokenCounterpartAtBlock`, the config store getters, and the
  bundle-history queries of `getFillDataForSlowFillFromPreviousRootBundle`) are
  abstracted as function parameters, exactly at the call shape the source uses.
-/

/-- A token-address-indexed dictionary of BigNumber values:
the inner level of the `RunningBalances` shape. -/
abbrev TokenMap := List (Nat × Int)

/-- `interfaces.RunningBalances`: chain id → token address → signed balance. -/
abbrev RunningBalances := List (Nat × TokenMap)

/-- JS property access `tm[token]` on the inner dictionary. -/
def lookupToken : TokenMap → Nat → Option Int
  | [], _ => none
  | (t, v) :: rest, t' => if t = t' then some v else lookupToken rest t'

/-- JS property access `rb[chainId]` on the outer dictionary. -/
def lookupChain : RunningBalances → Nat → Option TokenMap
  | [], _ => none
  | (c, tm) :: rest, c' => if c = c' then some tm else lookupChain rest c'

/-- Two-level access `rb[chainId][token]`, an absent chain reading as the empty
dictionary (observation helper for the theorems). -/
def lookupBalance (rb : RunningBalances) (c t : Nat) : Option Int :=
  lookupToken ((lookupChain rb c).getD []) t

/-- Inner step of `updateRunningBalance` (source lines 31-35): if the token key is
present, add `updateAmount` to it (a BigNumber, even zero, is truthy), otherwise
insert the token with `updateAmount`. -/
def updateTokenBalance : TokenMap → Nat → Int → TokenMap
  | [], l1Token, amt => [(l1Token, amt)]
  | (t, v) :: rest, l1Token, amt =>
    if t = l1Token then (t, v + amt) :: rest
    else (t, v) :: updateTokenBalance rest l1Token amt

/-- `updateRunningBalance` (source): initialize the chain dictionary if absent, then
add to (or insert) the token entry. -/
def updateRunningBalance : RunningBalances → Nat → Nat → Int → RunningBalances
  | [], l2ChainId, l1Token, amt => [(l2ChainId, [(l1Token, amt)])]
  | (c, tm) :: rest, l2ChainId, l1Token, amt =>
    if c = l2ChainId then (c, updateTokenBalance tm l1Token amt) :: rest
    else (c, tm) :: updateRunningBalance rest l2ChainId l1Token amt

/-- `getNetSendAmountForL1Token` (source): release the whole balance when its
absolute value reaches the transfer threshold, else 0. -/
def getNetSendAmountForL1Token (transferThreshold runningBalance : Int) : Int :=
  if transferThreshold ≤ |runningBalance| then runningBalance else 0

/-- `getRunningBalanceForL1Token` (source): carry the whole balance when its
absolute value is below the transfer threshold, else 0. -/
def getRunningBalanceForL1Token (transferThreshold runningBalance : Int) : Int :=
  if |runningBalance| < transferThreshold then runningBalance else 0

/-- C2: the threshold policy: when `|B| ≥ T` the pair is `(B, 0)`; when `|B| < T`
it is `(0, B)`; the net-send amount and the carried balance are never both
nonzero. -/
theorem thresholdPolicy_correct (T B : Int) (hT : 0 ≤ T) :
    ((T ≤ |B| → getNetSendAmountForL1Token T B = B ∧ getRunningBalanceForL1Token T B = 0) ∧
     (|B| < T → getNetSendAmountForL1Token T B = 0 ∧ getRunningBalanceForL1Token T B = B)) ∧
    (getNetSendAmountForL1Token T B = 0 ∨ getRunningBalanceForL1Token T B = 0) := by
  unfold getNetSendAmountForL1Token getRunningBalanceForL1Token
  constructor
  · constructor
    · intro h
      rw [if_pos h, if_neg (not_lt.mpr h)]
      exact ⟨rfl, rfl⟩
    · intro h
      rw [if_neg (not_le.mpr h), if_pos h]
      exact ⟨rfl, rfl⟩
  · by_cases h : T ≤ |B|
    · right
      rw [if_neg (not_lt.mpr h)]
    · left
      rw [if_neg h]

/-- Witness for C2 at `T = 2`, `B = -3` (released) checked concretely. -/
theorem thresholdPolicy_correct_witness :
    (0 : Int) ≤ 2 ∧
      (((2 : Int) ≤ |(-3 : Int)| →
          getNetSendAmountForL1Token 2 (-3) = -3 ∧ getRunningBalanceForL1Token 2 (-3) = 0) ∧
        (|(-3 : Int)| < 2 →
          getNetSendAmountForL1Token 2 (-3) = 0 ∧ getRunningBalanceForL1Token 2 (-3) = -3)) ∧
      (getNetSendAmountForL1Token 2 (-3) = 0 ∨ getRunningBalanceForL1Token 2 (-3) = 0) :=
  ⟨by decide, thresholdPolicy_correct 2 (-3) (by decide)⟩

/-- `interfaces.FillWithBlock`: the fields of a fill event that
`subtractExcessFromPreviousSlowFillsFromRunningBalances` and
`updateRunningBalanceForFill` read. -/
structure Fill where
  amount : Int
  totalFilledAmount : Int
  fillAmount : Int
  isSlowRelay : Bool
  destinationChainId : Nat
  destinationToken : Nat
  blockNumber : Nat
  deriving Repr, DecidableEq

/-- `updateRunningBalanceForFill` (source): resolve the settlement-chain counterpart
of the fill destination token at the fill block, then update that bucket.
`getL1TokenCounterpart chainId token block` abstracts
`hubPoolClient.getL1TokenCounterpartAtBlock`. -/
def updateRunningBalanceForFill (getL1TokenCounterpart : Nat → Nat → Nat → Nat)
    (runningBalances : RunningBalances) (fill : Fill) (updateAmount : Int) :
    RunningBalances :=
  let l1TokenCounterpart :=
    getL1TokenCounterpart fill.destinationChainId fill.destinationToken fill.blockNumber
  updateRunningBalance runningBalances fill.destinationChainId l1TokenCounterpart updateAmount

/-- One iteration of the `allValidFills.forEach` body of
`subtractExcessFromPreviousSlowFillsFromRunningBalances` (source lines 153-202).
`getFillData fill` abstracts `getFillDataForSlowFillFromPreviousRootBundle`,
returning the pair
`(lastFillBeforeSlowFillIncludedInRoot, rootBundleEndBlockContainingFirstFill)`;
`getRootBundleEvalBlock block chainId` abstracts
`hubPoolClient.getRootBundleEvalBlockNumberContainingBlock`. A `throw` in the
source is an `Except.error`. -/
def processFillForExcess
    (getL1TokenCounterpart : Nat → Nat → Nat → Nat)
    (getFillData : Fill → Option Fill × Option Nat)
    (getRootBundleEvalBlock : Nat → Nat → Option Nat)
    (runningBalances : RunningBalances) (fill : Fill) :
    Except String RunningBalances :=
  let lastFillBeforeSlowFillIncludedInRoot := (getFillData fill).1
  let rootBundleEndBlockContainingFirstFill := (getFillData fill).2
  if fill.totalFilledAmount = fill.amount then
    let rootBundleEndBlockContainingFullFill :=
      getRootBundleEvalBlock fill.blockNumber fill.destinationChainId
    -- `===` on number-or-undefined: both-undefined compares equal (source line 183).
    if rootBundleEndBlockContainingFirstFill = rootBundleEndBlockContainingFullFill then
      .ok runningBalances
    else
      match lastFillBeforeSlowFillIncludedInRoot with
      | none =>
        .error "Cant find last fill submitted before slow fill was included in root bundle proposal"
      | some lastFill =>
        let amountSentForSlowFill := lastFill.amount - lastFill.totalFilledAmount
        let excess :=
          if fill.isSlowRelay then amountSentForSlowFill - fill.fillAmount
          else amountSentForSlowFill
        if excess = 0 then .ok runningBalances
        else .ok (updateRunningBalanceForFill getL1TokenCounterpart runningBalances fill
          (excess * (-1)))
  else .ok runningBalances

/-- `subtractExcessFromPreviousSlowFillsFromRunningBalances` (source): fold the
per-fill body over `allValidFills`; a `throw` aborts the whole traversal. -/
def subtractExcessFromPreviousSlowFillsFromRunningBalances
    (getL1TokenCounterpart : Nat → Nat → Nat → Nat)
    (getFillData : Fill → Option Fill × Option Nat)
    (getRootBundleEvalBlock : Nat → Nat → Option Nat)
    (runningBalances : RunningBalances) :
    List Fill → Except String RunningBalances
  | [] => .ok runningBalances
  | fill :: rest =>
    match processFillForExcess getL1TokenCounterpart getFillData getRootBundleEvalBlock
        runningBalances fill with
    | .ok rb =>
      subtractExcessFromPreviousSlowFillsFromRunningBalances getL1TokenCounterpart
        getFillData getRootBundleEvalBlock rb rest
    | .error e => .error e

/-- `amountSentForSlowFill` of source line 191: the reservation gap of the prior fill. -/
def amountReservedOf (lastFill : Fill) : Int :=
  lastFill.amount - lastFill.totalFilledAmount

/-- `excess` of source line 198. -/
def excessOf (fill lastFill : Fill) : Int :=
  if fill.isSlowRelay then amountReservedOf lastFill - fill.fillAmount
  else amountReservedOf lastFill

/-- Lookup after an inner-map update: the touched key gains `v` (its absent value
reading as 0); every other key is unchanged. -/
theorem lookupToken_updateTokenBalance (tm : TokenMap) (t t' : Nat) (v : Int) :
    lookupToken (updateTokenBalance tm t v) t' =
      if t = t' then some ((lookupToken tm t).getD 0 + v) else lookupToken tm t' := by
  induction tm with
  | nil =>
    by_cases h : t = t' <;> simp [updateTokenBalance, lookupToken, h]
  | cons p rest ih =>
    obtain ⟨a, b⟩ := p
    by_cases hat : a = t
    · subst hat
      by_cases hq : a = t' <;> simp [updateTokenBalance, lookupToken, hq]
    · by_cases haq : a = t'
      · have hne : ¬ t = t' := fun h => hat (haq.trans h.symm)
        have hne2 : ¬ t' = t := fun h => hat (haq.trans h)
        simp [updateTokenBalance, lookupToken, hat, haq, hne, hne2]
      · simp [updateTokenBalance, lookupToken, hat, haq, ih]

/-- Chain-level effect of `updateRunningBalance`: the touched chain entry becomes its
old token map (absent reading as empty) with the token updated; other chains keep
their entries. -/
theorem lookupChain_updateRunningBalance (rb : RunningBalances) (c t c' : Nat)
    (v : Int) :
    lookupChain (updateRunningBalance rb c t v) c' =
      if c = c' then some (updateTokenBalance ((lookupChain rb c).getD []) t v)
      else lookupChain rb c' := by
  induction rb with
  | nil =>
    by_cases h : c = c' <;> simp [updateRunningBalance, lookupChain, h, updateTokenBalance]
  | cons p rest ih =>
    obtain ⟨a, tm⟩ := p
    by_cases hac : a = c
    · subst hac
      by_cases hq : a = c' <;> simp [updateRunningBalance, lookupChain, hq]
    · by_cases haq : a = c'
      · have hne : ¬ c = c' := fun h => hac (haq.trans h.symm)
        have hne2 : ¬ c' = c := fun h => hac (haq.trans h)
        simp [updateRunningBalance, lookupChain, hac, haq, hne, hne2]
      · simp [updateRunningBalance, lookupChain, hac, haq, ih]

/-- Lookup after `updateRunningBalance`: the touched (chain, token) bucket gains `v`
(absent reading as 0); every other bucket is unchanged. -/
theorem lookupBalance_updateRunningBalance (rb : RunningBalances) (c t c' t' : Nat)
    (v : Int) :
    lookupBalance (updateRunningBalance rb c t v) c' t' =
      if c = c' ∧ t = t' then some ((lookupBalance rb c t).getD 0 + v)
      else lookupBalance rb c' t' := by
  unfold lookupBalance
  rw [lookupChain_updateRunningBalance]
  by_cases hc : c = c'
  · subst hc
    rw [if_pos rfl]
    simp only [Option.getD_some]
    rw [lookupToken_updateTokenBalance]
    by_cases ht : t = t' <;> simp [ht]
  · simp [hc]

/-- C1: for a completing fill whose first fill lies in an earlier settlement window
(the two window end-block markers differ) and whose prior reservation fill is
found, the engine computes the reservation as
`lastFill.amount - lastFill.totalFilledAmount`, sets the excess to that minus
`fill.fillAmount` when the completing fill is the slow relay and to the full
reservation otherwise, and, when the excess is nonzero, adds `-excess` to the
destination-chain / settlement-token bucket. -/
theorem excessCorrection_completing_fill
    (getL1TokenCounterpart : Nat → Nat → Nat → Nat)
    (getFillData : Fill → Option Fill × Option Nat)
    (getRootBundleEvalBlock : Nat → Nat → Option Nat)
    (rb : RunningBalances) (fill lastFill : Fill)
    (hcomplete : fill.totalFilledAmount = fill.amount)
    (hprior : (getFillData fill).1 = some lastFill)
    (hdiff : (getFillData fill).2 ≠
      getRootBundleEvalBlock fill.blockNumber fill.destinationChainId) :
    processFillForExcess getL1TokenCounterpart getFillData getRootBundleEvalBlock rb fill =
      (if excessOf fill lastFill = 0 then Except.ok rb
       else Except.ok (updateRunningBalanceForFill getL1TokenCounterpart rb fill
         (excessOf fill lastFill * (-1)))) ∧
    (excessOf fill lastFill ≠ 0 →
      lookupBalance
          (updateRunningBalanceForFill getL1TokenCounterpart rb fill
            (excessOf fill lastFill * (-1)))
          fill.destinationChainId
          (getL1TokenCounterpart fill.destinationChainId fill.destinationToken
            fill.blockNumber) =
        some ((lookupBalance rb fill.destinationChainId
            (getL1TokenCounterpart fill.destinationChainId fill.destinationToken
              fill.blockNumber)).getD 0 +
          excessOf fill lastFill * (-1))) := by
  constructor
  · simp [processFillForExcess, hcomplete, hdiff, hprior, excessOf, amountReservedOf]
  · intro _
    simp only [updateRunningBalanceForFill]
    rw [lookupBalance_updateRunningBalance]
    simp

/-- C3: when a completing fill and the deposit first fill fall in different
settlement windows but no prior reservation fill can be found, the engine aborts
the whole reconciliation with an error, for any fill list containing such a fill. -/
theorem excessCorrection_missing_prior_fill_fatal
    (getL1TokenCounterpart : Nat → Nat → Nat → Nat)
    (getFillData : Fill → Option Fill × Option Nat)
    (getRootBundleEvalBlock : Nat → Nat → Option Nat)
    (rb : RunningBalances) (fills : List Fill) (fill : Fill)
    (hmem : fill ∈ fills)
    (hcomplete : fill.totalFilledAmount = fill.amount)
    (hnone : (getFillData fill).1 = none)
    (hdiff : (getFillData fill).2 ≠
      getRootBundleEvalBlock fill.blockNumber fill.destinationChainId) :
    ∃ msg, subtractExcessFromPreviousSlowFillsFromRunningBalances getL1TokenCounterpart
        getFillData getRootBundleEvalBlock rb fills = Except.error msg := by
  revert hmem
  induction fills generalizing rb with
  | nil => intro h; cases h
  | cons hd tl ih =>
    intro hmem
    rcases List.mem_cons.mp hmem with heq | htl
    · subst heq
      have hproc : processFillForExcess getL1TokenCounterpart getFillData
          getRootBundleEvalBlock rb fill =
          Except.error
            "Cant find last fill submitted before slow fill was included in root bundle proposal" := by
        simp [processFillForExcess, hcomplete, hdiff, hnone]
      refine
        ⟨"Cant find last fill submitted before slow fill was included in root bundle proposal",
          ?_⟩
      simp [subtractExcessFromPreviousSlowFillsFromRunningBalances, hproc]
    · cases hproc : processFillForExcess getL1TokenCounterpart getFillData
          getRootBundleEvalBlock rb hd with
      | ok rb2 =>
        obtain ⟨msg, hmsg⟩ := ih rb2 htl
        exact ⟨msg, by
          simp [subtractExcessFromPreviousSlowFillsFromRunningBalances, hproc, hmsg]⟩
      | error e =>
        exact ⟨e, by
          simp [subtractExcessFromPreviousSlowFillsFromRunningBalances, hproc]⟩

/-- C4: a completing fill whose first-fill window marker equals its own window
marker (including both markers undefined) causes no correction: the running
balances pass through unchanged. -/
theorem excessCorrection_same_window_skips
    (getL1TokenCounterpart : Nat → Nat → Nat → Nat)
    (getFillData : Fill → Option Fill × Option Nat)
    (getRootBundleEvalBlock : Nat → Nat → Option Nat)
    (rb : RunningBalances) (fill : Fill)
    (hcomplete : fill.totalFilledAmount = fill.amount)
    (hsame : (getFillData fill).2 =
      getRootBundleEvalBlock fill.blockNumber fill.destinationChainId) :
    processFillForExcess getL1TokenCounterpart getFillData getRootBundleEvalBlock
        rb fill = Except.ok rb ∧
    subtractExcessFromPreviousSlowFillsFromRunningBalances getL1TokenCounterpart
        getFillData getRootBundleEvalBlock rb [fill] = Except.ok rb := by
  have hproc : processFillForExcess getL1TokenCounterpart getFillData
      getRootBundleEvalBlock rb fill = Except.ok rb := by
    simp [processFillForExcess, hcomplete, hsame]
  exact ⟨hproc, by
    simp [subtractExcessFromPreviousSlowFillsFromRunningBalances, hproc]⟩

/-- Concrete scenario data for the excess-correction witnesses: an ordinary fill
completing a 100-unit deposit whose first fill (to 60) sat in an earlier window. -/
def exFill : Fill := ⟨100, 100, 40, false, 10, 7, 50⟩

/-- The prior reservation fill of the scenario: 60 of 100 filled, reserving 40. -/
def exLastFill : Fill := ⟨100, 60, 0, false, 10, 7, 20⟩

/-- Bundle-history answers for the scenario: prior fill found, first fill in the
window ending at block 5. -/
def exGetFillData : Fill → Option Fill × Option Nat := fun _ => (some exLastFill, some 5)

/-- Bundle-history answers with no locatable prior reservation fill. -/
def exGetFillDataNone : Fill → Option Fill × Option Nat := fun _ => (none, some 5)

/-- Bundle-history answers with both markers undefined (both fills in the current
bundle). -/
def exGetFillDataBothNone : Fill → Option Fill × Option Nat := fun _ => (none, none)

/-- Completing-fill window marker: the window ending at block 9. -/
def exGetEndBlock : Nat → Nat → Option Nat := fun _ _ => some 9

/-- Completing-fill window marker undefined (fill in the current bundle). -/
def exGetEndBlockNone : Nat → Nat → Option Nat := fun _ _ => none

/-- Token-counterpart resolver for the scenario. -/
def exCounterpart : Nat → Nat → Nat → Nat := fun _ t _ => t + 1000

/-- Witness for C1 at the concrete scenario (excess 40, clawed back in full). -/
theorem excessCorrection_completing_fill_witness :
    processFillForExcess exCounterpart exGetFillData exGetEndBlock [] exFill =
      (if excessOf exFill exLastFill = 0 then Except.ok []
       else Except.ok (updateRunningBalanceForFill exCounterpart [] exFill
         (excessOf exFill exLastFill * (-1)))) ∧
    (excessOf exFill exLastFill ≠ 0 →
      lookupBalance
          (updateRunningBalanceForFill exCounterpart [] exFill
            (excessOf exFill exLastFill * (-1)))
          exFill.destinationChainId
          (exCounterpart exFill.destinationChainId exFill.destinationToken
            exFill.blockNumber) =
        some ((lookupBalance [] exFill.destinationChainId
            (exCounterpart exFill.destinationChainId exFill.destinationToken
              exFill.blockNumber)).getD 0 +
          excessOf exFill exLastFill * (-1))) :=
  excessCorrection_completing_fill exCounterpart exGetFillData exGetEndBlock [] exFill
    exLastFill (by decide) (by decide) (by decide)

/-- Witness for C3 at the concrete scenario with the prior fill missing. -/
theorem excessCorrection_missing_prior_fill_fatal_witness :
    ∃ msg, subtractExcessFromPreviousSlowFillsFromRunningBalances exCounterpart
        exGetFillDataNone exGetEndBlock [] [exFill] = Except.error msg :=
  excessCorrection_missing_prior_fill_fatal exCounterpart exGetFillDataNone exGetEndBlock
    [] [exFill] exFill (by decide) (by decide) (by decide) (by decide)

/-- Witness for C4 at the concrete scenario with both window markers undefined. -/
theorem excessCorrection_same_window_skips_witness :
    processFillForExcess exCounterpart exGetFillDataBothNone exGetEndBlockNone
        [(10, [(1007, 3)])] exFill = Except.ok [(10, [(1007, 3)])] ∧
    subtractExcessFromPreviousSlowFillsFromRunningBalances exCounterpart
        exGetFillDataBothNone exGetEndBlockNone [(10, [(1007, 3)])] [exFill] =
      Except.ok [(10, [(1007, 3)])] :=
  excessCorrection_same_window_skips exCounterpart exGetFillDataBothNone exGetEndBlockNone
    [(10, [(1007, 3)])] exFill (by decide) (by decide)

/-- The aggregate record of `interfaces.FillsToRefund` at one
(repayment-chain, repayment-token) key. `totalRefundAmount` is absent for chains
that only had slow fills (source comment at lines 109-110); `realizedLpFees`
exists on every entry produced by refund counting. -/
structure RefundRecord where
  totalRefundAmount : Option Int
  realizedLpFees : Int
  deriving Repr, DecidableEq

/-- `interfaces.FillsToRefund`: repayment chain id → repayment token → record. -/
abbrev FillsToRefund := List (Nat × List (Nat × RefundRecord))

/-- Modelled from the spec: `assign` (imported from `../utils`, which is not among
the sources) writes `value` at the nested `[chainId, l1Token]` path of `obj`,
adding to any value already present there (spec 4.2 initialize: "adds the refund
amount to that bucket"). This is the same insert-or-add discipline as the
own `updateRunningBalance` of the source. -/
def assign (obj : RunningBalances) (chainId l1Token : Nat) (value : Int) :
    RunningBalances :=
  updateRunningBalance obj chainId l1Token value

/-- Inner loop of `initializeRunningBalancesFromRelayerRepayments` (source lines
94-117): for each repayment token of one chain, resolve the counterpart token,
copy `realizedLpFees` unconditionally, and add `totalRefundAmount` only when it
exists (the truthiness check of line 111 tests existence: a BigNumber, even
zero, is truthy). -/
def initTokenLoop (latestMainnetBlock : Nat)
    (getL1TokenCounterpart : Nat → Nat → Nat → Nat) (repaymentChainId : Nat) :
    List (Nat × RefundRecord) → RunningBalances × RunningBalances →
      RunningBalances × RunningBalances
  | [], acc => acc
  | (l2TokenAddress, r) :: rest, (runningBalances, realizedLpFees) =>
    let l1TokenCounterpart :=
      getL1TokenCounterpart repaymentChainId l2TokenAddress latestMainnetBlock
    let realizedLpFees2 :=
      assign realizedLpFees repaymentChainId l1TokenCounterpart r.realizedLpFees
    let runningBalances2 :=
      match r.totalRefundAmount with
      | some amt => assign runningBalances repaymentChainId l1TokenCounterpart amt
      | none => runningBalances
    initTokenLoop latestMainnetBlock getL1TokenCounterpart repaymentChainId rest
      (runningBalances2, realizedLpFees2)

/-- Outer loop of `initializeRunningBalancesFromRelayerRepayments` over the
repayment chains. -/
def initChainLoop (latestMainnetBlock : Nat)
    (getL1TokenCounterpart : Nat → Nat → Nat → Nat) :
    FillsToRefund → RunningBalances × RunningBalances →
      RunningBalances × RunningBalances
  | [], acc => acc
  | (repaymentChainId, entries) :: rest, acc =>
    initChainLoop latestMainnetBlock getL1TokenCounterpart rest
      (initTokenLoop latestMainnetBlock getL1TokenCounterpart repaymentChainId
        entries acc)

/-- `initializeRunningBalancesFromRelayerRepayments` (source): build fresh
running-balance and fee ledgers from the fills-to-refund aggregation. -/
def initializeRunningBalancesFromRelayerRepayments (latestMainnetBlock : Nat)
    (getL1TokenCounterpart : Nat → Nat → Nat → Nat)
    (fillsToRefund : FillsToRefund) : RunningBalances × RunningBalances :=
  initChainLoop latestMainnetBlock getL1TokenCounterpart fillsToRefund ([], [])

/-- The effect of one insert-or-add on a bucket: an absent bucket reads as 0. -/
def bump (prev : Option Int) (v : Int) : Option Int :=
  some (prev.getD 0 + v)

/-- The per-entry refund contribution to bucket `(c, l1)` from a chain-`cid`
entry: its refund amount when the keys map to the bucket and the amount exists. -/
def refundContribFn (lb : Nat) (f : Nat → Nat → Nat → Nat) (cid c l1 : Nat)
    (p : Nat × RefundRecord) : Option Int :=
  if cid = c ∧ f cid p.1 lb = l1 then p.2.totalRefundAmount else none

/-- The per-entry fee contribution to bucket `(c, l1)` from a chain-`cid` entry:
its realized LP fee whenever the keys map to the bucket. -/
def feeContribFn (lb : Nat) (f : Nat → Nat → Nat → Nat) (cid c l1 : Nat)
    (p : Nat × RefundRecord) : Option Int :=
  if cid = c ∧ f cid p.1 lb = l1 then some p.2.realizedLpFees else none

/-- The refund amounts that the initialization adds into bucket `(c, l1)`. -/
def refundContribs (lb : Nat) (f : Nat → Nat → Nat → Nat)
    (fillsToRefund : FillsToRefund) (c l1 : Nat) : List Int :=
  fillsToRefund.flatMap fun ce => ce.2.filterMap (refundContribFn lb f ce.1 c l1)

/-- The realized LP fees that the initialization copies into bucket `(c, l1)`. -/
def feeContribs (lb : Nat) (f : Nat → Nat → Nat → Nat)
    (fillsToRefund : FillsToRefund) (c l1 : Nat) : List Int :=
  fillsToRefund.flatMap fun ce => ce.2.filterMap (feeContribFn lb f ce.1 c l1)

/-- A bucket after `updateRunningBalance` on itself is a `bump`. -/
theorem lookupBalance_updateRunningBalance_self (rb : RunningBalances) (c t : Nat)
    (v : Int) :
    lookupBalance (updateRunningBalance rb c t v) c t = bump (lookupBalance rb c t) v := by
  rw [lookupBalance_updateRunningBalance]
  simp [bump]

/-- A bucket other than the updated one is untouched. -/
theorem lookupBalance_updateRunningBalance_other (rb : RunningBalances)
    (c t c' t' : Nat) (v : Int) (h : ¬ (c = c' ∧ t = t')) :
    lookupBalance (updateRunningBalance rb c t v) c' t' = lookupBalance rb c' t' := by
  rw [lookupBalance_updateRunningBalance, if_neg h]

/-- Bucket-level effect of the inner initialization loop on the running balances:
each entry whose refund amount exists and whose keys map to the bucket adds its
amount. -/
theorem initTokenLoop_rb_bucket (lb : Nat) (f : Nat → Nat → Nat → Nat) (cid : Nat)
    (entries : List (Nat × RefundRecord)) (acc : RunningBalances × RunningBalances)
    (c l1 : Nat) :
    lookupBalance (initTokenLoop lb f cid entries acc).1 c l1 =
      List.foldl bump (lookupBalance acc.1 c l1)
        (entries.filterMap (refundContribFn lb f cid c l1)) := by
  induction entries generalizing acc with
  | nil => simp [initTokenLoop]
  | cons hd rest ih =>
    obtain ⟨l2, r⟩ := hd
    obtain ⟨rb0, fees0⟩ := acc
    cases hr : r.totalRefundAmount with
    | some amt =>
      by_cases hk : cid = c ∧ f cid l2 lb = l1
      · have hcontrib : refundContribFn lb f cid c l1 (l2, r) = some amt := by
          rw [refundContribFn, if_pos hk, hr]
        rw [List.filterMap_cons_some hcontrib]
        simp only [initTokenLoop, hr]
        rw [ih, List.foldl_cons]
        congr 1
        obtain ⟨h1, h2⟩ := hk
        subst h1
        subst h2
        simp [assign, lookupBalance_updateRunningBalance_self]
      · have hcontrib : refundContribFn lb f cid c l1 (l2, r) = none := by
          rw [refundContribFn, if_neg hk]
        rw [List.filterMap_cons_none hcontrib]
        simp only [initTokenLoop, hr]
        rw [ih]
        congr 1
        exact lookupBalance_updateRunningBalance_other _ _ _ _ _ _ hk
    | none =>
      have hcontrib : refundContribFn lb f cid c l1 (l2, r) = none := by
        rw [refundContribFn, hr, ite_self]
      rw [List.filterMap_cons_none hcontrib]
      simp only [initTokenLoop, hr]
      rw [ih]

/-- Bucket-level effect of the inner initialization loop on the fee ledger:
every entry whose keys map to the bucket adds its realized LP fee, with no
condition on the refund amount. -/
theorem initTokenLoop_fees_bucket (lb : Nat) (f : Nat → Nat → Nat → Nat) (cid : Nat)
    (entries : List (Nat × RefundRecord)) (acc : RunningBalances × RunningBalances)
    (c l1 : Nat) :
    lookupBalance (initTokenLoop lb f cid entries acc).2 c l1 =
      List.foldl bump (lookupBalance acc.2 c l1)
        (entries.filterMap (feeContribFn lb f cid c l1)) := by
  induction entries generalizing acc with
  | nil => simp [initTokenLoop]
  | cons hd rest ih =>
    obtain ⟨l2, r⟩ := hd
    obtain ⟨rb0, fees0⟩ := acc
    by_cases hk : cid = c ∧ f cid l2 lb = l1
    · have hcontrib : feeContribFn lb f cid c l1 (l2, r) = some r.realizedLpFees := by
        rw [feeContribFn, if_pos hk]
      rw [List.filterMap_cons_some hcontrib]
      cases hr : r.totalRefundAmount with
      | some amt =>
        simp only [initTokenLoop, hr]
        rw [ih, List.foldl_cons]
        congr 1
        obtain ⟨h1, h2⟩ := hk
        subst h1
        subst h2
        simp [assign, lookupBalance_updateRunningBalance_self]
      | none =>
        simp only [initTokenLoop, hr]
        rw [ih, List.foldl_cons]
        congr 1
        obtain ⟨h1, h2⟩ := hk
        subst h1
        subst h2
        simp [assign, lookupBalance_updateRunningBalance_self]
    · have hcontrib : feeContribFn lb f cid c l1 (l2, r) = none := by
        rw [feeContribFn, if_neg hk]
      rw [List.filterMap_cons_none hcontrib]
      cases hr : r.totalRefundAmount with
      | some amt =>
        simp only [initTokenLoop, hr]
        rw [ih]
        congr 1
        exact lookupBalance_updateRunningBalance_other _ _ _ _ _ _ hk
      | none =>
        simp only [initTokenLoop, hr]
        rw [ih]
        congr 1
        exact lookupBalance_updateRunningBalance_other _ _ _ _ _ _ hk

/-- Bucket-level effect of the outer initialization loop on the running balances. -/
theorem initChainLoop_rb_bucket (lb : Nat) (f : Nat → Nat → Nat → Nat)
    (ftr : FillsToRefund) (acc : RunningBalances × RunningBalances) (c l1 : Nat) :
    lookupBalance (initChainLoop lb f ftr acc).1 c l1 =
      List.foldl bump (lookupBalance acc.1 c l1) (refundContribs lb f ftr c l1) := by
  induction ftr generalizing acc with
  | nil => simp [initChainLoop, refundContribs]
  | cons ce rest ih =>
    obtain ⟨cid, entries⟩ := ce
    simp only [initChainLoop, refundContribs, List.flatMap_cons]
    rw [List.foldl_append, ih, initTokenLoop_rb_bucket]
    rfl

/-- Bucket-level effect of the outer initialization loop on the fee ledger. -/
theorem initChainLoop_fees_bucket (lb : Nat) (f : Nat → Nat → Nat → Nat)
    (ftr : FillsToRefund) (acc : RunningBalances × RunningBalances) (c l1 : Nat) :
    lookupBalance (initChainLoop lb f ftr acc).2 c l1 =
      List.foldl bump (lookupBalance acc.2 c l1) (feeContribs lb f ftr c l1) := by
  induction ftr generalizing acc with
  | nil => simp [initChainLoop, feeContribs]
  | cons ce rest ih =>
    obtain ⟨cid, entries⟩ := ce
    simp only [initChainLoop, feeContribs, List.flatMap_cons]
    rw [List.foldl_append, ih, initTokenLoop_fees_bucket]
    rfl

/-- A fold of bumps yields a value exactly when the base was present or some
contribution arrived. -/
theorem foldl_bump_isSome (b : Option Int) (l : List Int) :
    (List.foldl bump b l).isSome ↔ (b.isSome ∨ l ≠ []) := by
  induction l generalizing b with
  | nil => simp
  | cons hd tl ih => simp [bump, ih]

/-- A fold of bumps accumulates the sum of the contributions over the base
(absent reading as 0). -/
theorem foldl_bump_getD (b : Option Int) (l : List Int) :
    (List.foldl bump b l).getD 0 = b.getD 0 + l.sum := by
  induction l generalizing b with
  | nil => simp
  | cons hd tl ih =>
    rw [List.foldl_cons, ih, List.sum_cons]
    simp [bump]
    ring

/-- The refund-contribution list for a bucket is nonempty exactly when some
entry keys onto the bucket with a PRESENT `totalRefundAmount`. -/
theorem refundContribs_ne_nil_iff (lb : Nat) (f : Nat → Nat → Nat → Nat)
    (ftr : FillsToRefund) (c l1 : Nat) :
    refundContribs lb f ftr c l1 ≠ [] ↔
      ∃ entries l2 r, (c, entries) ∈ ftr ∧ (l2, r) ∈ entries ∧ f c l2 lb = l1 ∧
        r.totalRefundAmount.isSome := by
  rw [refundContribs, Ne, List.flatMap_eq_nil_iff]
  push_neg
  constructor
  · rintro ⟨ce, hce, hne⟩
    rw [Ne, List.filterMap_eq_nil_iff] at hne
    push_neg at hne
    obtain ⟨p, hp, hcond⟩ := hne
    by_cases hc : ce.1 = c ∧ f ce.1 p.1 lb = l1
    · obtain ⟨h1, h2⟩ := hc
      refine ⟨ce.2, p.1, p.2, ?_, ?_, ?_, ?_⟩
      · rw [← h1]
        exact (Prod.mk.eta ▸ hce : (ce.1, ce.2) ∈ ftr)
      · exact (Prod.mk.eta ▸ hp : (p.1, p.2) ∈ ce.2)
      · rw [← h1]
        exact h2
      · rw [refundContribFn, if_pos ⟨h1, h2⟩] at hcond
        exact Option.ne_none_iff_isSome.mp hcond
    · rw [refundContribFn, if_neg hc] at hcond
      exact absurd rfl hcond
  · rintro ⟨entries, l2, r, hmem, hp, hf, hsome⟩
    refine ⟨(c, entries), hmem, ?_⟩
    rw [Ne, List.filterMap_eq_nil_iff]
    push_neg
    refine ⟨(l2, r), hp, ?_⟩
    rw [refundContribFn, if_pos ⟨rfl, hf⟩]
    exact Option.ne_none_iff_isSome.mpr hsome

/-- The fee-contribution list for a bucket is nonempty exactly when some entry
keys onto the bucket, with no condition on the refund amount. -/
theorem feeContribs_ne_nil_iff (lb : Nat) (f : Nat → Nat → Nat → Nat)
    (ftr : FillsToRefund) (c l1 : Nat) :
    feeContribs lb f ftr c l1 ≠ [] ↔
      ∃ entries l2 r, (c, entries) ∈ ftr ∧ (l2, r) ∈ entries ∧ f c l2 lb = l1 := by
  rw [feeContribs, Ne, List.flatMap_eq_nil_iff]
  push_neg
  constructor
  · rintro ⟨ce, hce, hne⟩
    rw [Ne, List.filterMap_eq_nil_iff] at hne
    push_neg at hne
    obtain ⟨p, hp, hcond⟩ := hne
    by_cases hc : ce.1 = c ∧ f ce.1 p.1 lb = l1
    · obtain ⟨h1, h2⟩ := hc
      refine ⟨ce.2, p.1, p.2, ?_, ?_, ?_⟩
      · rw [← h1]
        exact (Prod.mk.eta ▸ hce : (ce.1, ce.2) ∈ ftr)
      · exact (Prod.mk.eta ▸ hp : (p.1, p.2) ∈ ce.2)
      · rw [← h1]
        exact h2
    · rw [feeContribFn, if_neg hc] at hcond
      exact absurd rfl hcond
  · rintro ⟨entries, l2, r, hmem, hp, hf⟩
    refine ⟨(c, entries), hmem, ?_⟩
    rw [Ne, List.filterMap_eq_nil_iff]
    push_neg
    refine ⟨(l2, r), hp, ?_⟩
    rw [feeContribFn, if_pos ⟨rfl, hf⟩]
    exact Option.some_ne_none _

/-- C5 counterexample: the guard in the source tests PRESENCE of `totalRefundAmount`
(a BigNumber, even zero, is truthy), not nonzero-ness. On an input whose only
entry has `totalRefundAmount` present but equal to zero, the claim as stated
("adds ... exactly for pairs whose totalRefundAmount is nonzero") predicts an
empty running-balance ledger, yet the code creates the bucket. -/
theorem initialize_nonzero_claim_counterexample :
    (∀ ce ∈ ([(1, [(10, ⟨some 0, 5⟩)])] : FillsToRefund), ∀ p ∈ ce.2,
        p.2.totalRefundAmount.getD 0 = 0) ∧
    (initializeRunningBalancesFromRelayerRepayments 0 (fun _ t _ => t + 100)
        [(1, [(10, ⟨some 0, 5⟩)])]).1 ≠ [] ∧
    lookupBalance (initializeRunningBalancesFromRelayerRepayments 0
        (fun _ t _ => t + 100) [(1, [(10, ⟨some 0, 5⟩)])]).1 1 110 = some 0 := by
  decide

/-- C5 amended: the initialization creates a running-balance bucket for exactly
the (repayment-chain, counterpart-token) pairs reached by an entry whose
`totalRefundAmount` is present (even when zero), the bucket holding the sum of
those refund amounts, while the fee ledger gets a bucket for every entry pair
regardless of refund presence, holding the sum of the copied fees. -/
theorem initialize_buckets_characterization (lb : Nat)
    (f : Nat → Nat → Nat → Nat) (ftr : FillsToRefund) (c l1 : Nat) :
    ((lookupBalance (initializeRunningBalancesFromRelayerRepayments lb f ftr).1
        c l1).isSome ↔
      ∃ entries l2 r, (c, entries) ∈ ftr ∧ (l2, r) ∈ entries ∧ f c l2 lb = l1 ∧
        r.totalRefundAmount.isSome) ∧
    (lookupBalance (initializeRunningBalancesFromRelayerRepayments lb f ftr).1
        c l1).getD 0 = (refundContribs lb f ftr c l1).sum ∧
    ((lookupBalance (initializeRunningBalancesFromRelayerRepayments lb f ftr).2
        c l1).isSome ↔
      ∃ entries l2 r, (c, entries) ∈ ftr ∧ (l2, r) ∈ entries ∧ f c l2 lb = l1) ∧
    (lookupBalance (initializeRunningBalancesFromRelayerRepayments lb f ftr).2
        c l1).getD 0 = (feeContribs lb f ftr c l1).sum := by
  unfold initializeRunningBalancesFromRelayerRepayments
  refine ⟨?_, ?_, ?_, ?_⟩
  · rw [initChainLoop_rb_bucket, foldl_bump_isSome, ← refundContribs_ne_nil_iff lb f ftr c l1]
    simp [lookupBalance, lookupChain, lookupToken]
  · rw [initChainLoop_rb_bucket, foldl_bump_getD]
    simp [lookupBalance, lookupChain, lookupToken]
  · rw [initChainLoop_fees_bucket, foldl_bump_isSome, ← feeContribs_ne_nil_iff lb f ftr c l1]
    simp [lookupBalance, lookupChain, lookupToken]
  · rw [initChainLoop_fees_bucket, foldl_bump_getD]
    simp [lookupBalance, lookupChain, lookupToken]

/-- `interfaces.PoolRebalanceLeaf` as constructed by the object literal of source
lines 240-258. `bundleLpFees` entries are optional because the source reads
`realizedLpFees[chainId][l1Token]`, which is undefined when the per-chain fee
dictionary lacks that token; the zero-fill branch produces BigNumber zeros,
embedded as `some 0`. -/
structure PoolRebalanceLeaf where
  chainId : Nat
  bundleLpFees : List (Option Int)
  netSendAmounts : List Int
  runningBalances : List Int
  groupIndex : Nat
  leafId : Nat
  l1Tokens : List Nat
  deriving Repr, DecidableEq

/-- Fuel-indexed worker for `chunkList`: each step slices the next `n` tokens.
The fuel starts at the list length, which bounds the number of strides whenever
the stride is positive. -/
def chunkListGo (n : Nat) : Nat → List Nat → List (List Nat)
  | 0, _ => []
  | _ + 1, [] => []
  | fuel + 1, l => l.take n :: chunkListGo n fuel (l.drop n)

/-- The for-loop of source lines 231-232 walks the sorted token list in strides of
`maxL1TokensPerLeaf`, slicing `[i, i + max)`; `chunkList` returns those slices in
order. The source loop would not terminate on a zero stride (`i += 0`), so a
zero stride lies outside the modelled domain and returns `[]`; the theorems that
depend on the stride assume it positive. -/
def chunkList (n : Nat) (l : List Nat) : List (List Nat) :=
  if n = 0 then [] else chunkListGo n l.length l

/-- The worker ignores the exact fuel as long as it covers the list length. -/
theorem chunkListGo_fuel (n : Nat) (hn : ¬ n = 0) (N : Nat) :
    ∀ l : List Nat, l.length ≤ N → ∀ fuel fuel' : Nat, l.length ≤ fuel →
      l.length ≤ fuel' → chunkListGo n fuel l = chunkListGo n fuel' l := by
  induction N with
  | zero =>
    intro l hl fuel fuel' h1 h2
    have hnil : l = [] := List.eq_nil_of_length_eq_zero (Nat.le_zero.mp hl)
    subst hnil
    cases fuel <;> cases fuel' <;> rfl
  | succ N ih =>
    intro l hl fuel fuel' h1 h2
    cases l with
    | nil => cases fuel <;> cases fuel' <;> rfl
    | cons a t =>
      cases fuel with
      | zero => simp at h1
      | succ f =>
        cases fuel' with
        | zero => simp at h2
        | succ f' =>
          show (a :: t).take n :: chunkListGo n f ((a :: t).drop n) =
            (a :: t).take n :: chunkListGo n f' ((a :: t).drop n)
          congr 1
          have hlen : ((a :: t).drop n).length = t.length + 1 - n := by
            rw [List.length_drop, List.length_cons]
          have hpos : 0 < n := Nat.pos_of_ne_zero hn
          simp only [List.length_cons] at hl h1 h2
          refine ih ((a :: t).drop n) (by omega) f f' (by omega) (by omega)

/-- Unfolding of `chunkList` in the degenerate cases. -/
theorem chunkList_nil_of (n : Nat) (l : List Nat) (h : n = 0 ∨ l = []) :
    chunkList n l = [] := by
  rcases h with h | h
  · rw [chunkList, if_pos h]
  · subst h
    rw [chunkList]
    split
    · rfl
    · rfl

/-- Unfolding of `chunkList` on a positive stride and nonempty list. -/
theorem chunkList_cons (n : Nat) (l : List Nat) (hn : ¬ n = 0) (hl : ¬ l = []) :
    chunkList n l = l.take n :: chunkList n (l.drop n) := by
  rw [chunkList, chunkList, if_neg hn, if_neg hn]
  obtain ⟨a, t, rfl⟩ : ∃ a t, l = a :: t := by
    cases l with
    | nil => exact absurd rfl hl
    | cons a t => exact ⟨a, t, rfl⟩
  show (a :: t).take n :: chunkListGo n t.length ((a :: t).drop n) =
    (a :: t).take n :: chunkListGo n ((a :: t).drop n).length ((a :: t).drop n)
  congr 1
  have hpos : 0 < n := Nat.pos_of_ne_zero hn
  refine chunkListGo_fuel n hn t.length ((a :: t).drop n) ?_ _ _ ?_ le_rfl <;>
    · rw [List.length_drop, List.length_cons]
      omega

/-- Induction along the stride structure of `chunkList`. -/
theorem chunkList_induction (n : Nat) (motive : List Nat → Prop)
    (base : ∀ l, n = 0 ∨ l = [] → motive l)
    (step : ∀ l, ¬ (n = 0 ∨ l = []) → motive (l.drop n) → motive l) :
    ∀ l, motive l := by
  have main : ∀ N l, l.length ≤ N → motive l := by
    intro N
    induction N with
    | zero =>
      intro l hl
      exact base l (Or.inr (List.eq_nil_of_length_eq_zero (Nat.le_zero.mp hl)))
    | succ N ih =>
      intro l hl
      by_cases h : n = 0 ∨ l = []
      · exact base l h
      · refine step l h (ih _ ?_)
        push_neg at h
        have h1 : 0 < n := Nat.pos_of_ne_zero h.1
        have h2 : 0 < l.length := List.length_pos.mpr h.2
        rw [List.length_drop]
        omega
  intro l
  exact main l.length l le_rfl

/-- The effective `maxL1TokensPerLeaf` of source lines 229-230: the JS `||` falls
through to the config value when `maxL1TokenCount` is undefined or 0 (both
falsy). `getMaxRefundCount` abstracts
`configStoreClient.getMaxRefundCountForRelayerRefundLeafForBlock`. -/
def effectiveMaxL1TokensPerLeaf (maxL1TokenCount : Option Nat)
    (getMaxRefundCount : Nat → Nat) (latestMainnetBlock : Nat) : Nat :=
  match maxL1TokenCount with
  | some n => if n = 0 then getMaxRefundCount latestMainnetBlock else n
  | none => getMaxRefundCount latestMainnetBlock

/-- The per-token transfer threshold of source lines 234-238: the override entry
when present (a BigNumber value, even zero, is truthy), else the config value.
`getTokenTransferThreshold` abstracts
`configStoreClient.getTokenTransferThresholdForBlock`. -/
def thresholdFor (tokenTransferThreshold : TokenMap)
    (getTokenTransferThreshold : Nat → Nat → Int) (latestMainnetBlock : Nat)
    (l1Token : Nat) : Int :=
  match lookupToken tokenTransferThreshold l1Token with
  | some v => v
  | none => getTokenTransferThreshold l1Token latestMainnetBlock

/-- The leaf object literal of source lines 240-258 for one token group of one
chain. The chain id is always drawn from the keys of `runningBalances`, so the
`runningBalances[chainId] ? ... : zero-fill` ternaries of the source always take the
map branch, reading `runningBalances[chainId][l1Token]` at keys of that very
dictionary (the `.getD 0` default is never reached); the fee ternary genuinely
takes either branch. -/
def buildLeaf (chainId groupIndex leafId : Nat)
    (l1TokensToIncludeInThisLeaf : List Nat) (thr : Nat → Int) (tm : TokenMap)
    (feeMap : Option TokenMap) : PoolRebalanceLeaf :=
  { chainId := chainId
    bundleLpFees :=
      match feeMap with
      | some fm => l1TokensToIncludeInThisLeaf.map fun t => lookupToken fm t
      | none => List.replicate l1TokensToIncludeInThisLeaf.length (some 0)
    netSendAmounts := l1TokensToIncludeInThisLeaf.map fun t =>
      getNetSendAmountForL1Token (thr t) ((lookupToken tm t).getD 0)
    runningBalances := l1TokensToIncludeInThisLeaf.map fun t =>
      getRunningBalanceForL1Token (thr t) ((lookupToken tm t).getD 0)
    groupIndex := groupIndex
    leafId := leafId
    l1Tokens := l1TokensToIncludeInThisLeaf }

/-- The leaf-emission loop for one chain: `groupIndexForChainId` starts at 0 and
increments per pushed leaf (source line 255), and `leafId` is `leaves.length` at
push time (source line 256), i.e. `startLeafId + groupIndex`. -/
def leavesForGroups (chainId : Nat) (thr : Nat → Int) (tm : TokenMap)
    (feeMap : Option TokenMap) (startLeafId : Nat) :
    Nat → List (List Nat) → List PoolRebalanceLeaf
  | _, [] => []
  | g, toks :: rest =>
    buildLeaf chainId g (startLeafId + g) toks thr tm feeMap ::
      leavesForGroups chainId thr tm feeMap startLeafId (g + 1) rest

/-- All leaves for one chain (the `.map` body of source lines 219-260): sort the
token keys of the chain ascending and emit one leaf per token group.
(`compareAddresses`, imported from `../utils`, is not among the sources; per the
spec tokens are "sorted by ascending address", and addresses are embedded as
naturals in that order.) -/
def leavesForChain (latestMainnetBlock maxL1TokensPerLeaf : Nat)
    (runningBalances realizedLpFees : RunningBalances)
    (getTokenTransferThreshold : Nat → Nat → Int) (tokenTransferThreshold : TokenMap)
    (startLeafId chainId : Nat) : List PoolRebalanceLeaf :=
  let tm := (lookupChain runningBalances chainId).getD []
  let sortedL1Tokens := List.insertionSort (· ≤ ·) (tm.map fun p => p.1)
  leavesForGroups chainId
    (thresholdFor tokenTransferThreshold getTokenTransferThreshold latestMainnetBlock)
    tm (lookupChain realizedLpFees chainId) startLeafId 0
    (chunkList maxL1TokensPerLeaf sortedL1Tokens)

/-- Emission over the sorted chain ids: the first `leafId` of each chain continues from
the number of leaves already pushed for earlier chains. -/
def leavesForChains (latestMainnetBlock maxL1TokensPerLeaf : Nat)
    (runningBalances realizedLpFees : RunningBalances)
    (getTokenTransferThreshold : Nat → Nat → Int) (tokenTransferThreshold : TokenMap)
    (startLeafId : Nat) : List Nat → List PoolRebalanceLeaf
  | [] => []
  | chainId :: rest =>
    let leavesForThisChain := leavesForChain latestMainnetBlock maxL1TokensPerLeaf
      runningBalances realizedLpFees getTokenTransferThreshold tokenTransferThreshold
      startLeafId chainId
    leavesForThisChain ++
      leavesForChains latestMainnetBlock maxL1TokensPerLeaf runningBalances
        realizedLpFees getTokenTransferThreshold tokenTransferThreshold
        (startLeafId + leavesForThisChain.length) rest

/-- `constructPoolRebalanceLeaves` (source lines 205-262): one or more leaves per
chain id of `runningBalances`, chains in ascending numeric order (the source
sorts the keys by `Number(a) - Number(b)`), token addresses sorted ascending
within a chain and split into groups of at most the effective per-leaf
maximum. -/
def constructPoolRebalanceLeaves (latestMainnetBlock : Nat)
    (runningBalances realizedLpFees : RunningBalances)
    (getMaxRefundCount : Nat → Nat) (getTokenTransferThreshold : Nat → Nat → Int)
    (maxL1TokenCount : Option Nat) (tokenTransferThreshold : TokenMap) :
    List PoolRebalanceLeaf :=
  leavesForChains latestMainnetBlock
    (effectiveMaxL1TokensPerLeaf maxL1TokenCount getMaxRefundCount latestMainnetBlock)
    runningBalances realizedLpFees getTokenTransferThreshold tokenTransferThreshold 0
    (List.insertionSort (· ≤ ·) (runningBalances.map fun p => p.1))

/-- Every chunk has at most `n` tokens and is a sublist of the chunked list. -/
theorem mem_chunkList (n : Nat) (l piece : List Nat) :
    piece ∈ chunkList n l → piece.length ≤ n ∧ piece.Sublist l := by
  induction l using chunkList_induction n with
  | base x hx =>
    intro h
    rw [chunkList_nil_of n x hx] at h
    cases h
  | step x hx ih =>
    intro h
    push_neg at hx
    rw [chunkList_cons n x hx.1 hx.2] at h
    rcases List.mem_cons.mp h with heq | hrest
    · subst heq
      refine ⟨?_, List.take_sublist n x⟩
      rw [List.length_take]
      exact min_le_left _ _
    · obtain ⟨h1, h2⟩ := ih hrest
      exact ⟨h1, h2.trans (List.drop_sublist n x)⟩

/-- With a positive stride, the chunks reassemble the chunked list. -/
theorem flatten_chunkList (n : Nat) (hn : ¬ n = 0) (l : List Nat) :
    (chunkList n l).flatten = l := by
  induction l using chunkList_induction n with
  | base x hx =>
    rcases hx with h | h
    · exact absurd h hn
    · subst h
      rw [chunkList_nil_of n [] (Or.inr rfl)]
      rfl
  | step x hx ih =>
    push_neg at hx
    rw [chunkList_cons n x hx.1 hx.2, List.flatten_cons, ih, List.take_append_drop]

/-- The number of leaves emitted for a chunk list. -/
theorem leavesForGroups_length (chainId : Nat) (thr : Nat → Int) (tm : TokenMap)
    (feeMap : Option TokenMap) (startLeafId : Nat) (chunks : List (List Nat)) (g : Nat) :
    (leavesForGroups chainId thr tm feeMap startLeafId g chunks).length =
      chunks.length := by
  induction chunks generalizing g with
  | nil => rfl
  | cons toks rest ih => simp [leavesForGroups, ih]

/-- The leaf ids emitted for a chunk list are consecutive from
`startLeafId + g`. -/
theorem leavesForGroups_map_leafId (chainId : Nat) (thr : Nat → Int) (tm : TokenMap)
    (feeMap : Option TokenMap) (startLeafId : Nat) (chunks : List (List Nat)) (g : Nat) :
    (leavesForGroups chainId thr tm feeMap startLeafId g chunks).map
        (fun leaf => leaf.leafId) = List.range' (startLeafId + g) chunks.length := by
  induction chunks generalizing g with
  | nil => simp [leavesForGroups]
  | cons toks rest ih =>
    simp only [leavesForGroups, List.map_cons, List.length_cons, buildLeaf]
    rw [List.range'_succ, ih]
    have : startLeafId + (g + 1) = startLeafId + g + 1 := by omega
    rw [this]

/-- The group indices emitted for a chunk list are consecutive from `g`. -/
theorem leavesForGroups_map_groupIndex (chainId : Nat) (thr : Nat → Int)
    (tm : TokenMap) (feeMap : Option TokenMap) (startLeafId : Nat)
    (chunks : List (List Nat)) (g : Nat) :
    (leavesForGroups chainId thr tm feeMap startLeafId g chunks).map
        (fun leaf => leaf.groupIndex) = List.range' g chunks.length := by
  induction chunks generalizing g with
  | nil => simp [leavesForGroups]
  | cons toks rest ih =>
    simp only [leavesForGroups, List.map_cons, List.length_cons, buildLeaf]
    rw [List.range'_succ, ih]

/-- The token groups of the emitted leaves are exactly the chunks, in order. -/
theorem leavesForGroups_map_l1Tokens (chainId : Nat) (thr : Nat → Int)
    (tm : TokenMap) (feeMap : Option TokenMap) (startLeafId : Nat)
    (chunks : List (List Nat)) (g : Nat) :
    (leavesForGroups chainId thr tm feeMap startLeafId g chunks).map
        (fun leaf => leaf.l1Tokens) = chunks := by
  induction chunks generalizing g with
  | nil => simp [leavesForGroups]
  | cons toks rest ih =>
    simp only [leavesForGroups, List.map_cons, buildLeaf]
    rw [ih]

/-- Every leaf emitted for a chain carries that chain id. -/
theorem leavesForGroups_chainId (chainId : Nat) (thr : Nat → Int) (tm : TokenMap)
    (feeMap : Option TokenMap) (startLeafId : Nat) (chunks : List (List Nat)) (g : Nat) :
    ∀ leaf ∈ leavesForGroups chainId thr tm feeMap startLeafId g chunks,
      leaf.chainId = chainId := by
  induction chunks generalizing g with
  | nil => intro leaf h; cases h
  | cons toks rest ih =>
    intro leaf h
    rcases List.mem_cons.mp h with heq | hrest
    · subst heq
      rfl
    · exact ih (g + 1) leaf hrest

/-- Every emitted leaf has its four parallel sequences of the length of its group,
and its token group is one of the chunks. -/
theorem leavesForGroups_shape (chainId : Nat) (thr : Nat → Int) (tm : TokenMap)
    (feeMap : Option TokenMap) (startLeafId : Nat) (chunks : List (List Nat)) (g : Nat) :
    ∀ leaf ∈ leavesForGroups chainId thr tm feeMap startLeafId g chunks,
      leaf.bundleLpFees.length = leaf.l1Tokens.length ∧
      leaf.netSendAmounts.length = leaf.l1Tokens.length ∧
      leaf.runningBalances.length = leaf.l1Tokens.length ∧
      leaf.l1Tokens ∈ chunks := by
  induction chunks generalizing g with
  | nil => intro leaf h; cases h
  | cons toks rest ih =>
    intro leaf h
    rcases List.mem_cons.mp h with heq | hrest
    · subst heq
      refine ⟨?_, ?_, ?_, List.mem_cons_self _ _⟩
      · cases feeMap <;> simp [buildLeaf]
      · simp [buildLeaf]
      · simp [buildLeaf]
    · obtain ⟨h1, h2, h3, h4⟩ := ih (g + 1) leaf hrest
      exact ⟨h1, h2, h3, List.mem_cons_of_mem _ h4⟩

/-- A chain lookup that succeeds locates an entry of the dictionary. -/
theorem lookupChain_mem (rb : RunningBalances) (c : Nat) (tm : TokenMap) :
    lookupChain rb c = some tm → (c, tm) ∈ rb := by
  induction rb with
  | nil => intro h; cases h
  | cons p rest ih =>
    obtain ⟨a, tma⟩ := p
    intro h
    rw [lookupChain] at h
    by_cases hac : a = c
    · rw [if_pos hac] at h
      subst hac
      cases h
      exact List.mem_cons_self _ _
    · rw [if_neg hac] at h
      exact List.mem_cons_of_mem _ (ih h)

/-- A chain lookup fails exactly when the chain id is not among the keys. -/
theorem lookupChain_eq_none_iff (rb : RunningBalances) (c : Nat) :
    lookupChain rb c = none ↔ c ∉ rb.map (fun p => p.1) := by
  induction rb with
  | nil => simp [lookupChain]
  | cons p rest ih =>
    obtain ⟨a, tma⟩ := p
    by_cases hac : a = c
    · subst hac
      simp [lookupChain]
    · have hca : ¬ c = a := fun h => hac h.symm
      simp [lookupChain, hac, hca, ih]

/-- The leaf ids of the leaves of one chain are consecutive from its start id. -/
theorem leavesForChain_map_leafId (latestMainnetBlock maxL1TokensPerLeaf : Nat)
    (runningBalances realizedLpFees : RunningBalances)
    (getTokenTransferThreshold : Nat → Nat → Int) (tokenTransferThreshold : TokenMap)
    (startLeafId chainId : Nat) :
    (leavesForChain latestMainnetBlock maxL1TokensPerLeaf runningBalances
        realizedLpFees getTokenTransferThreshold tokenTransferThreshold startLeafId
        chainId).map (fun leaf => leaf.leafId) =
      List.range' startLeafId
        (leavesForChain latestMainnetBlock maxL1TokensPerLeaf runningBalances
          realizedLpFees getTokenTransferThreshold tokenTransferThreshold startLeafId
          chainId).length := by
  unfold leavesForChain
  rw [leavesForGroups_map_leafId, leavesForGroups_length, Nat.add_zero]

/-- The leaf ids of the whole emission are consecutive from the start id. -/
theorem leavesForChains_map_leafId (latestMainnetBlock maxL1TokensPerLeaf : Nat)
    (runningBalances realizedLpFees : RunningBalances)
    (getTokenTransferThreshold : Nat → Nat → Int) (tokenTransferThreshold : TokenMap)
    (cs : List Nat) (startLeafId : Nat) :
    (leavesForChains latestMainnetBlock maxL1TokensPerLeaf runningBalances
        realizedLpFees getTokenTransferThreshold tokenTransferThreshold startLeafId
        cs).map (fun leaf => leaf.leafId) =
      List.range' startLeafId
        (leavesForChains latestMainnetBlock maxL1TokensPerLeaf runningBalances
          realizedLpFees getTokenTransferThreshold tokenTransferThreshold startLeafId
          cs).length := by
  induction cs generalizing startLeafId with
  | nil => simp [leavesForChains]
  | cons c rest ih =>
    simp only [leavesForChains, List.map_append, List.length_append]
    rw [leavesForChain_map_leafId, ih]
    have happ := List.range'_append startLeafId
      (leavesForChain latestMainnetBlock maxL1TokensPerLeaf runningBalances
        realizedLpFees getTokenTransferThreshold tokenTransferThreshold startLeafId
        c).length
      (leavesForChains latestMainnetBlock maxL1TokensPerLeaf runningBalances
        realizedLpFees getTokenTransferThreshold tokenTransferThreshold
        (startLeafId +
          (leavesForChain latestMainnetBlock maxL1TokensPerLeaf runningBalances
            realizedLpFees getTokenTransferThreshold tokenTransferThreshold startLeafId
            c).length)
        rest).length 1
    rw [Nat.one_mul] at happ
    rw [happ, Nat.add_comm]

/-- C6: the leaf builder is deterministic: equal inputs produce identical leaf
sequences in identical order. -/
theorem constructPoolRebalanceLeaves_deterministic
    (latestMainnetBlock latestMainnetBlock2 : Nat)
    (runningBalances runningBalances2 realizedLpFees realizedLpFees2 : RunningBalances)
    (getMaxRefundCount getMaxRefundCount2 : Nat → Nat)
    (getTokenTransferThreshold getTokenTransferThreshold2 : Nat → Nat → Int)
    (maxL1TokenCount maxL1TokenCount2 : Option Nat)
    (tokenTransferThreshold tokenTransferThreshold2 : TokenMap)
    (h1 : latestMainnetBlock = latestMainnetBlock2)
    (h2 : runningBalances = runningBalances2)
    (h3 : realizedLpFees = realizedLpFees2)
    (h4 : getMaxRefundCount = getMaxRefundCount2)
    (h5 : getTokenTransferThreshold = getTokenTransferThreshold2)
    (h6 : maxL1TokenCount = maxL1TokenCount2)
    (h7 : tokenTransferThreshold = tokenTransferThreshold2) :
    constructPoolRebalanceLeaves latestMainnetBlock runningBalances realizedLpFees
        getMaxRefundCount getTokenTransferThreshold maxL1TokenCount
        tokenTransferThreshold =
      constructPoolRebalanceLeaves latestMainnetBlock2 runningBalances2
        realizedLpFees2 getMaxRefundCount2 getTokenTransferThreshold2
        maxL1TokenCount2 tokenTransferThreshold2 := by
  subst h1
  subst h2
  subst h3
  subst h4
  subst h5
  subst h6
  subst h7
  rfl

/-- Witness for C6 at a concrete invocation pair. -/
theorem constructPoolRebalanceLeaves_deterministic_witness :
    constructPoolRebalanceLeaves 3 [(10, [(5, 100), (1, 2)])] [(10, [(1, 11)])]
        (fun _ => 2) (fun _ _ => 10) none [] =
      constructPoolRebalanceLeaves 3 [(10, [(5, 100), (1, 2)])] [(10, [(1, 11)])]
        (fun _ => 2) (fun _ _ => 10) none [] :=
  constructPoolRebalanceLeaves_deterministic 3 3 [(10, [(5, 100), (1, 2)])]
    [(10, [(5, 100), (1, 2)])] [(10, [(1, 11)])] [(10, [(1, 11)])]
    (fun _ => 2) (fun _ => 2) (fun _ _ => 10) (fun _ _ => 10) none none [] []
    rfl rfl rfl rfl rfl rfl rfl

/-- Emission order on leaves: ascending chain id, then ascending group index. -/
def leafEmissionOrder (a b : PoolRebalanceLeaf) : Prop :=
  a.chainId < b.chainId ∨ (a.chainId = b.chainId ∧ a.groupIndex < b.groupIndex)

/-- The leaves of one chain have strictly increasing group indices. -/
theorem leavesForGroups_pairwise_groupIndex (chainId : Nat) (thr : Nat → Int)
    (tm : TokenMap) (feeMap : Option TokenMap) (startLeafId : Nat)
    (chunks : List (List Nat)) (g : Nat) :
    List.Pairwise (fun a b => a.groupIndex < b.groupIndex)
      (leavesForGroups chainId thr tm feeMap startLeafId g chunks) := by
  have hpair : List.Pairwise (fun a b => a < b)
      ((leavesForGroups chainId thr tm feeMap startLeafId g chunks).map
        fun leaf => leaf.groupIndex) := by
    rw [leavesForGroups_map_groupIndex]
    exact List.pairwise_lt_range' _ _
  exact List.pairwise_map.mp hpair

/-- Every leaf of one chain carries that chain id. -/
theorem leavesForChain_chainId (latestMainnetBlock maxL1TokensPerLeaf : Nat)
    (runningBalances realizedLpFees : RunningBalances)
    (getTokenTransferThreshold : Nat → Nat → Int) (tokenTransferThreshold : TokenMap)
    (startLeafId chainId : Nat) :
    ∀ leaf ∈ leavesForChain latestMainnetBlock maxL1TokensPerLeaf runningBalances
        realizedLpFees getTokenTransferThreshold tokenTransferThreshold startLeafId
        chainId, leaf.chainId = chainId := by
  unfold leavesForChain
  exact leavesForGroups_chainId _ _ _ _ _ _ _

/-- The leaves of one chain are pairwise in emission order. -/
theorem leavesForChain_pairwise (latestMainnetBlock maxL1TokensPerLeaf : Nat)
    (runningBalances realizedLpFees : RunningBalances)
    (getTokenTransferThreshold : Nat → Nat → Int) (tokenTransferThreshold : TokenMap)
    (startLeafId chainId : Nat) :
    List.Pairwise leafEmissionOrder
      (leavesForChain latestMainnetBlock maxL1TokensPerLeaf runningBalances
        realizedLpFees getTokenTransferThreshold tokenTransferThreshold startLeafId
        chainId) := by
  have hg : List.Pairwise (fun a b => a.groupIndex < b.groupIndex)
      (leavesForChain latestMainnetBlock maxL1TokensPerLeaf runningBalances
        realizedLpFees getTokenTransferThreshold tokenTransferThreshold startLeafId
        chainId) := by
    unfold leavesForChain
    exact leavesForGroups_pairwise_groupIndex _ _ _ _ _ _ _
  refine hg.imp_of_mem ?_
  intro a b ha hb hlt
  right
  have hca := leavesForChain_chainId latestMainnetBlock maxL1TokensPerLeaf
    runningBalances realizedLpFees getTokenTransferThreshold tokenTransferThreshold
    startLeafId chainId a ha
  have hcb := leavesForChain_chainId latestMainnetBlock maxL1TokensPerLeaf
    runningBalances realizedLpFees getTokenTransferThreshold tokenTransferThreshold
    startLeafId chainId b hb
  rw [hca, hcb]
  exact ⟨rfl, hlt⟩

/-- The chain id of each emitted leaf comes from the processed chain list. -/
theorem mem_leavesForChains_chainId (latestMainnetBlock maxL1TokensPerLeaf : Nat)
    (runningBalances realizedLpFees : RunningBalances)
    (getTokenTransferThreshold : Nat → Nat → Int) (tokenTransferThreshold : TokenMap)
    (cs : List Nat) (startLeafId : Nat) :
    ∀ leaf ∈ leavesForChains latestMainnetBlock maxL1TokensPerLeaf runningBalances
        realizedLpFees getTokenTransferThreshold tokenTransferThreshold startLeafId
        cs, leaf.chainId ∈ cs := by
  induction cs generalizing startLeafId with
  | nil => intro leaf h; cases h
  | cons c rest ih =>
    intro leaf h
    simp only [leavesForChains] at h
    rcases List.mem_append.mp h with hl | hr
    · rw [leavesForChain_chainId latestMainnetBlock maxL1TokensPerLeaf runningBalances
        realizedLpFees getTokenTransferThreshold tokenTransferThreshold startLeafId c
        leaf hl]
      exact List.mem_cons_self _ _
    · exact List.mem_cons_of_mem _ (ih _ leaf hr)

/-- Over a strictly ascending chain list, the whole emission is pairwise in
emission order. -/
theorem leavesForChains_pairwise (latestMainnetBlock maxL1TokensPerLeaf : Nat)
    (runningBalances realizedLpFees : RunningBalances)
    (getTokenTransferThreshold : Nat → Nat → Int) (tokenTransferThreshold : TokenMap)
    (cs : List Nat) (startLeafId : Nat) (hcs : List.Pairwise (fun a b => a < b) cs) :
    List.Pairwise leafEmissionOrder
      (leavesForChains latestMainnetBlock maxL1TokensPerLeaf runningBalances
        realizedLpFees getTokenTransferThreshold tokenTransferThreshold startLeafId
        cs) := by
  induction cs generalizing startLeafId with
  | nil => simp [leavesForChains]
  | cons c rest ih =>
    obtain ⟨hhead, htail⟩ := List.pairwise_cons.mp hcs
    simp only [leavesForChains]
    rw [List.pairwise_append]
    refine ⟨leavesForChain_pairwise _ _ _ _ _ _ _ _, ih _ htail, ?_⟩
    intro a ha b hb
    left
    have hca := leavesForChain_chainId latestMainnetBlock maxL1TokensPerLeaf
      runningBalances realizedLpFees getTokenTransferThreshold tokenTransferThreshold
      startLeafId c a ha
    have hcb := mem_leavesForChains_chainId latestMainnetBlock maxL1TokensPerLeaf
      runningBalances realizedLpFees getTokenTransferThreshold tokenTransferThreshold
      rest _ b hb
    rw [hca]
    exact hhead _ hcb

/-- C7: the emitted `leafId` values are exactly `0 .. N-1` in emission order, and
the emission order is ascending chain id, then ascending group index. -/
theorem constructPoolRebalanceLeaves_leafIds (latestMainnetBlock : Nat)
    (runningBalances realizedLpFees : RunningBalances)
    (getMaxRefundCount : Nat → Nat) (getTokenTransferThreshold : Nat → Nat → Int)
    (maxL1TokenCount : Option Nat) (tokenTransferThreshold : TokenMap)
    (hnodup : (runningBalances.map fun p => p.1).Nodup) :
    (constructPoolRebalanceLeaves latestMainnetBlock runningBalances realizedLpFees
        getMaxRefundCount getTokenTransferThreshold maxL1TokenCount
        tokenTransferThreshold).map (fun leaf => leaf.leafId) =
      List.range
        (constructPoolRebalanceLeaves latestMainnetBlock runningBalances
          realizedLpFees getMaxRefundCount getTokenTransferThreshold maxL1TokenCount
          tokenTransferThreshold).length ∧
    List.Pairwise leafEmissionOrder
      (constructPoolRebalanceLeaves latestMainnetBlock runningBalances realizedLpFees
        getMaxRefundCount getTokenTransferThreshold maxL1TokenCount
        tokenTransferThreshold) := by
  constructor
  · unfold constructPoolRebalanceLeaves
    rw [leavesForChains_map_leafId, List.range_eq_range']
  · unfold constructPoolRebalanceLeaves
    apply leavesForChains_pairwise
    have hs : List.Pairwise (fun a b => a ≤ b)
        (List.insertionSort (fun a b => a ≤ b) (runningBalances.map fun p => p.1)) :=
      List.sorted_insertionSort _ _
    have hn : (List.insertionSort (fun a b => a ≤ b)
        (runningBalances.map fun p => p.1)).Nodup :=
      (List.perm_insertionSort _ _).symm.nodup hnodup
    exact (hs.and hn).imp fun h => lt_of_le_of_ne h.1 h.2

/-- Witness for C7 at a two-chain input, each chain with two token groups. -/
theorem constructPoolRebalanceLeaves_leafIds_witness :
    ((([(10, [(5, 100), (1, 2), (3, 50)]), (7, [(9, 1), (4, 6)])] : RunningBalances).map
        fun p => p.1).Nodup) ∧
    ((constructPoolRebalanceLeaves 0
        [(10, [(5, 100), (1, 2), (3, 50)]), (7, [(9, 1), (4, 6)])] [(10, [(1, 11)])]
        (fun _ => 2) (fun _ _ => 10) none []).map (fun leaf => leaf.leafId) =
      List.range
        (constructPoolRebalanceLeaves 0
          [(10, [(5, 100), (1, 2), (3, 50)]), (7, [(9, 1), (4, 6)])] [(10, [(1, 11)])]
          (fun _ => 2) (fun _ _ => 10) none []).length ∧
    List.Pairwise leafEmissionOrder
      (constructPoolRebalanceLeaves 0
        [(10, [(5, 100), (1, 2), (3, 50)]), (7, [(9, 1), (4, 6)])] [(10, [(1, 11)])]
        (fun _ => 2) (fun _ _ => 10) none [])) :=
  ⟨by decide,
    constructPoolRebalanceLeaves_leafIds 0
      [(10, [(5, 100), (1, 2), (3, 50)]), (7, [(9, 1), (4, 6)])] [(10, [(1, 11)])]
      (fun _ => 2) (fun _ _ => 10) none [] (by decide)⟩

/-- Every emitted leaf comes from the emission of some processed chain. -/
theorem mem_leavesForChains_decomp (latestMainnetBlock maxL1TokensPerLeaf : Nat)
    (runningBalances realizedLpFees : RunningBalances)
    (getTokenTransferThreshold : Nat → Nat → Int) (tokenTransferThreshold : TokenMap)
    (cs : List Nat) (startLeafId : Nat) :
    ∀ leaf ∈ leavesForChains latestMainnetBlock maxL1TokensPerLeaf runningBalances
        realizedLpFees getTokenTransferThreshold tokenTransferThreshold startLeafId
        cs,
      ∃ s c, c ∈ cs ∧
        leaf ∈ leavesForChain latestMainnetBlock maxL1TokensPerLeaf runningBalances
          realizedLpFees getTokenTransferThreshold tokenTransferThreshold s c := by
  induction cs generalizing startLeafId with
  | nil => intro leaf h; cases h
  | cons c rest ih =>
    intro leaf h
    simp only [leavesForChains] at h
    rcases List.mem_append.mp h with hl | hr
    · exact ⟨startLeafId, c, List.mem_cons_self _ _, hl⟩
    · obtain ⟨s, c2, hmem, hleaf⟩ := ih _ leaf hr
      exact ⟨s, c2, List.mem_cons_of_mem _ hmem, hleaf⟩

/-- The token keys of the dictionary of one chain, sorted ascending, are strictly
ascending when the dictionary keys are duplicate-free. -/
theorem sortedTokens_pairwise_lt (runningBalances : RunningBalances) (c : Nat)
    (htok : ∀ p ∈ runningBalances, (p.2.map fun q => q.1).Nodup) :
    List.Pairwise (fun a b => a < b)
      (List.insertionSort (fun a b => a ≤ b)
        (((lookupChain runningBalances c).getD []).map fun q => q.1)) := by
  have hnodup : (((lookupChain runningBalances c).getD []).map fun q => q.1).Nodup := by
    cases hlc : lookupChain runningBalances c with
    | none => simp
    | some tm =>
      simp only [Option.getD_some]
      exact htok (c, tm) (lookupChain_mem runningBalances c tm hlc)
  have hs : List.Pairwise (fun a b => a ≤ b)
      (List.insertionSort (fun a b => a ≤ b)
        (((lookupChain runningBalances c).getD []).map fun q => q.1)) :=
    List.sorted_insertionSort _ _
  have hn : (List.insertionSort (fun a b => a ≤ b)
      (((lookupChain runningBalances c).getD []).map fun q => q.1)).Nodup :=
    (List.perm_insertionSort _ _).symm.nodup hnodup
  exact (hs.and hn).imp fun h => lt_of_le_of_ne h.1 h.2

/-- C8: for every produced leaf the four parallel sequences have one common
length, that length is at most the effective per-leaf token maximum, and the
token addresses of the leaf are strictly ascending. -/
theorem constructPoolRebalanceLeaves_leaf_shape (latestMainnetBlock : Nat)
    (runningBalances realizedLpFees : RunningBalances)
    (getMaxRefundCount : Nat → Nat) (getTokenTransferThreshold : Nat → Nat → Int)
    (maxL1TokenCount : Option Nat) (tokenTransferThreshold : TokenMap)
    (hmax : 0 < effectiveMaxL1TokensPerLeaf maxL1TokenCount getMaxRefundCount
      latestMainnetBlock)
    (htok : ∀ p ∈ runningBalances, (p.2.map fun q => q.1).Nodup) :
    ∀ leaf ∈ constructPoolRebalanceLeaves latestMainnetBlock runningBalances
        realizedLpFees getMaxRefundCount getTokenTransferThreshold maxL1TokenCount
        tokenTransferThreshold,
      leaf.bundleLpFees.length = leaf.l1Tokens.length ∧
      leaf.netSendAmounts.length = leaf.l1Tokens.length ∧
      leaf.runningBalances.length = leaf.l1Tokens.length ∧
      leaf.l1Tokens.length ≤ effectiveMaxL1TokensPerLeaf maxL1TokenCount
        getMaxRefundCount latestMainnetBlock ∧
      List.Pairwise (fun a b => a < b) leaf.l1Tokens := by
  intro leaf h
  unfold constructPoolRebalanceLeaves at h
  obtain ⟨s, c, hmem, hleaf⟩ := mem_leavesForChains_decomp _ _ _ _ _ _ _ _ leaf h
  unfold leavesForChain at hleaf
  obtain ⟨h1, h2, h3, h4⟩ := leavesForGroups_shape _ _ _ _ _ _ _ leaf hleaf
  obtain ⟨h5, h6⟩ := mem_chunkList _ _ _ h4
  refine ⟨h1, h2, h3, h5, ?_⟩
  exact List.Pairwise.sublist h6 (sortedTokens_pairwise_lt runningBalances c htok)

/-- Witness for C8 at a concrete input with a split chain. -/
theorem constructPoolRebalanceLeaves_leaf_shape_witness :
    0 < effectiveMaxL1TokensPerLeaf none (fun _ => 2) 0 ∧
    (∀ p ∈ ([(10, [(5, 100), (1, 2), (3, 50)]), (7, [(9, 1)])] : RunningBalances),
      (p.2.map fun q => q.1).Nodup) ∧
    (∀ leaf ∈ constructPoolRebalanceLeaves 0
        [(10, [(5, 100), (1, 2), (3, 50)]), (7, [(9, 1)])] [(10, [(1, 11)])]
        (fun _ => 2) (fun _ _ => 10) none [],
      leaf.bundleLpFees.length = leaf.l1Tokens.length ∧
      leaf.netSendAmounts.length = leaf.l1Tokens.length ∧
      leaf.runningBalances.length = leaf.l1Tokens.length ∧
      leaf.l1Tokens.length ≤ effectiveMaxL1TokensPerLeaf none (fun _ => 2) 0 ∧
      List.Pairwise (fun a b => a < b) leaf.l1Tokens) :=
  ⟨by decide, by decide,
    constructPoolRebalanceLeaves_leaf_shape 0
      [(10, [(5, 100), (1, 2), (3, 50)]), (7, [(9, 1)])] [(10, [(1, 11)])]
      (fun _ => 2) (fun _ _ => 10) none [] (by decide) (by decide)⟩

/-- Over a chain list avoiding `c`, the emission has no leaf for chain `c`. -/
theorem filter_leavesForChains_not_mem (latestMainnetBlock maxL1TokensPerLeaf : Nat)
    (runningBalances realizedLpFees : RunningBalances)
    (getTokenTransferThreshold : Nat → Nat → Int) (tokenTransferThreshold : TokenMap)
    (cs : List Nat) (startLeafId c : Nat) (hc : c ∉ cs) :
    (leavesForChains latestMainnetBlock maxL1TokensPerLeaf runningBalances
        realizedLpFees getTokenTransferThreshold tokenTransferThreshold startLeafId
        cs).filter (fun leaf => leaf.chainId == c) = [] := by
  rw [List.filter_eq_nil_iff]
  intro leaf hleaf
  have := mem_leavesForChains_chainId latestMainnetBlock maxL1TokensPerLeaf
    runningBalances realizedLpFees getTokenTransferThreshold tokenTransferThreshold
    cs startLeafId leaf hleaf
  simp only [beq_iff_eq]
  intro heq
  rw [heq] at this
  exact hc this

/-- Over a strictly ascending chain list containing `c`, the leaves for chain `c`
are exactly one contiguous run: the emission of that chain at some start id. -/
theorem filter_leavesForChains_mem (latestMainnetBlock maxL1TokensPerLeaf : Nat)
    (runningBalances realizedLpFees : RunningBalances)
    (getTokenTransferThreshold : Nat → Nat → Int) (tokenTransferThreshold : TokenMap)
    (cs : List Nat) (startLeafId c : Nat)
    (hcs : List.Pairwise (fun a b => a < b) cs) (hc : c ∈ cs) :
    ∃ s,
      (leavesForChains latestMainnetBlock maxL1TokensPerLeaf runningBalances
          realizedLpFees getTokenTransferThreshold tokenTransferThreshold startLeafId
          cs).filter (fun leaf => leaf.chainId == c) =
        leavesForChain latestMainnetBlock maxL1TokensPerLeaf runningBalances
          realizedLpFees getTokenTransferThreshold tokenTransferThreshold s c := by
  induction cs generalizing startLeafId with
  | nil => cases hc
  | cons c0 rest ih =>
    obtain ⟨hhead, htail⟩ := List.pairwise_cons.mp hcs
    simp only [leavesForChains]
    rw [List.filter_append]
    rcases List.mem_cons.mp hc with heq | hmem
    · subst heq
      refine ⟨startLeafId, ?_⟩
      have hself : (leavesForChain latestMainnetBlock maxL1TokensPerLeaf
          runningBalances realizedLpFees getTokenTransferThreshold
          tokenTransferThreshold startLeafId c).filter
          (fun leaf => leaf.chainId == c) =
          leavesForChain latestMainnetBlock maxL1TokensPerLeaf runningBalances
            realizedLpFees getTokenTransferThreshold tokenTransferThreshold
            startLeafId c := by
        rw [List.filter_eq_self]
        intro leaf hleaf
        simp only [beq_iff_eq]
        exact leavesForChain_chainId _ _ _ _ _ _ _ _ leaf hleaf
      have hrest : c ∉ rest := fun hmem => lt_irrefl c (hhead c hmem)
      rw [hself, filter_leavesForChains_not_mem _ _ _ _ _ _ _ _ _ hrest,
        List.append_nil]
    · have hc0 : ¬ c0 = c := by
        intro heq
        rw [heq] at hhead
        exact lt_irrefl c (hhead c hmem)
      have hnil : (leavesForChain latestMainnetBlock maxL1TokensPerLeaf
          runningBalances realizedLpFees getTokenTransferThreshold
          tokenTransferThreshold startLeafId c0).filter
          (fun leaf => leaf.chainId == c) = [] := by
        rw [List.filter_eq_nil_iff]
        intro leaf hleaf
        simp only [beq_iff_eq]
        rw [leavesForChain_chainId _ _ _ _ _ _ _ _ leaf hleaf]
        exact hc0
      rw [hnil, List.nil_append]
      exact ih _ htail hmem

/-- The ascending-sorted chain keys are strictly ascending when duplicate-free. -/
theorem sortedChains_pairwise_lt (runningBalances : RunningBalances)
    (hnodup : (runningBalances.map fun p => p.1).Nodup) :
    List.Pairwise (fun a b => a < b)
      (List.insertionSort (fun a b => a ≤ b) (runningBalances.map fun p => p.1)) := by
  have hs : List.Pairwise (fun a b => a ≤ b)
      (List.insertionSort (fun a b => a ≤ b) (runningBalances.map fun p => p.1)) :=
    List.sorted_insertionSort _ _
  have hn : (List.insertionSort (fun a b => a ≤ b)
      (runningBalances.map fun p => p.1)).Nodup :=
    (List.perm_insertionSort _ _).symm.nodup hnodup
  exact (hs.and hn).imp fun h => lt_of_le_of_ne h.1 h.2

/-- C9: per chain, the token groups of the emitted leaves are exactly the
consecutive chunks of the ascending-sorted tokens of that chain, their group indices are
`0 .. k-1` in order, and the groups concatenate back to the sorted token
list. -/
theorem constructPoolRebalanceLeaves_chain_partition (latestMainnetBlock : Nat)
    (runningBalances realizedLpFees : RunningBalances)
    (getMaxRefundCount : Nat → Nat) (getTokenTransferThreshold : Nat → Nat → Int)
    (maxL1TokenCount : Option Nat) (tokenTransferThreshold : TokenMap)
    (hnodup : (runningBalances.map fun p => p.1).Nodup)
    (hmax : 0 < effectiveMaxL1TokensPerLeaf maxL1TokenCount getMaxRefundCount
      latestMainnetBlock)
    (c : Nat) :
    ((constructPoolRebalanceLeaves latestMainnetBlock runningBalances realizedLpFees
        getMaxRefundCount getTokenTransferThreshold maxL1TokenCount
        tokenTransferThreshold).filter (fun leaf => leaf.chainId == c)).map
        (fun leaf => leaf.groupIndex) =
      List.range
        ((constructPoolRebalanceLeaves latestMainnetBlock runningBalances
          realizedLpFees getMaxRefundCount getTokenTransferThreshold maxL1TokenCount
          tokenTransferThreshold).filter (fun leaf => leaf.chainId == c)).length ∧
    ((constructPoolRebalanceLeaves latestMainnetBlock runningBalances realizedLpFees
        getMaxRefundCount getTokenTransferThreshold maxL1TokenCount
        tokenTransferThreshold).filter (fun leaf => leaf.chainId == c)).map
        (fun leaf => leaf.l1Tokens) =
      chunkList
        (effectiveMaxL1TokensPerLeaf maxL1TokenCount getMaxRefundCount
          latestMainnetBlock)
        (List.insertionSort (fun a b => a ≤ b)
          (((lookupChain runningBalances c).getD []).map fun q => q.1)) ∧
    (((constructPoolRebalanceLeaves latestMainnetBlock runningBalances realizedLpFees
        getMaxRefundCount getTokenTransferThreshold maxL1TokenCount
        tokenTransferThreshold).filter (fun leaf => leaf.chainId == c)).map
        (fun leaf => leaf.l1Tokens)).flatten =
      List.insertionSort (fun a b => a ≤ b)
        (((lookupChain runningBalances c).getD []).map fun q => q.1) := by
  have hmaxne : ¬ effectiveMaxL1TokensPerLeaf maxL1TokenCount getMaxRefundCount
      latestMainnetBlock = 0 := Nat.pos_iff_ne_zero.mp hmax
  unfold constructPoolRebalanceLeaves
  by_cases hc : c ∈ List.insertionSort (fun a b => a ≤ b)
      (runningBalances.map fun p => p.1)
  · obtain ⟨s, hF⟩ := filter_leavesForChains_mem latestMainnetBlock _ runningBalances
      realizedLpFees getTokenTransferThreshold tokenTransferThreshold _ 0 c
      (sortedChains_pairwise_lt runningBalances hnodup) hc
    rw [hF]
    unfold leavesForChain
    refine ⟨?_, ?_, ?_⟩
    · rw [leavesForGroups_map_groupIndex, leavesForGroups_length,
        List.range_eq_range']
    · rw [leavesForGroups_map_l1Tokens]
    · rw [leavesForGroups_map_l1Tokens, flatten_chunkList _ hmaxne]
  · rw [filter_leavesForChains_not_mem latestMainnetBlock _ runningBalances
      realizedLpFees getTokenTransferThreshold tokenTransferThreshold _ 0 c hc]
    have hnone : lookupChain runningBalances c = none := by
      rw [lookupChain_eq_none_iff]
      intro hmem
      exact hc (((List.perm_insertionSort _ _).mem_iff).mpr hmem)
    rw [hnone]
    simp only [Option.getD_none, List.map_nil]
    refine ⟨rfl, ?_, rfl⟩
    exact (chunkList_nil_of _ _ (Or.inr rfl)).symm

/-- Witness for C9: a chain with five tokens and a per-leaf maximum of two
produces three groups with indices 0, 1, 2 and token counts 2, 2, 1. -/
theorem constructPoolRebalanceLeaves_chain_partition_witness :
    ((([(10, [(5, 100), (1, 2), (3, 50), (2, 7), (4, 9)])] : RunningBalances).map
        fun p => p.1).Nodup) ∧
    0 < effectiveMaxL1TokensPerLeaf (some 2) (fun _ => 9) 0 ∧
    (((constructPoolRebalanceLeaves 0
        [(10, [(5, 100), (1, 2), (3, 50), (2, 7), (4, 9)])] []
        (fun _ => 9) (fun _ _ => 10) (some 2) []).filter
        (fun leaf => leaf.chainId == 10)).map (fun leaf => leaf.groupIndex) =
      List.range
        ((constructPoolRebalanceLeaves 0
          [(10, [(5, 100), (1, 2), (3, 50), (2, 7), (4, 9)])] []
          (fun _ => 9) (fun _ _ => 10) (some 2) []).filter
          (fun leaf => leaf.chainId == 10)).length ∧
    ((constructPoolRebalanceLeaves 0
        [(10, [(5, 100), (1, 2), (3, 50), (2, 7), (4, 9)])] []
        (fun _ => 9) (fun _ _ => 10) (some 2) []).filter
        (fun leaf => leaf.chainId == 10)).map (fun leaf => leaf.l1Tokens) =
      chunkList (effectiveMaxL1TokensPerLeaf (some 2) (fun _ => 9) 0)
        (List.insertionSort (fun a b => a ≤ b)
          (((lookupChain [(10, [(5, 100), (1, 2), (3, 50), (2, 7), (4, 9)])]
            10).getD []).map fun q => q.1)) ∧
    (((constructPoolRebalanceLeaves 0
        [(10, [(5, 100), (1, 2), (3, 50), (2, 7), (4, 9)])] []
        (fun _ => 9) (fun _ _ => 10) (some 2) []).filter
        (fun leaf => leaf.chainId == 10)).map (fun leaf => leaf.l1Tokens)).flatten =
      List.insertionSort (fun a b => a ≤ b)
        (((lookupChain [(10, [(5, 100), (1, 2), (3, 50), (2, 7), (4, 9)])]
          10).getD []).map fun q => q.1)) ∧
    ((constructPoolRebalanceLeaves 0
        [(10, [(5, 100), (1, 2), (3, 50), (2, 7), (4, 9)])] []
        (fun _ => 9) (fun _ _ => 10) (some 2) []).filter
        (fun leaf => leaf.chainId == 10)).map (fun leaf => leaf.groupIndex) =
      [0, 1, 2] ∧
    ((constructPoolRebalanceLeaves 0
        [(10, [(5, 100), (1, 2), (3, 50), (2, 7), (4, 9)])] []
        (fun _ => 9) (fun _ _ => 10) (some 2) []).filter
        (fun leaf => leaf.chainId == 10)).map
        (fun leaf => leaf.l1Tokens.length) = [2, 2, 1] :=
  ⟨by decide, by decide,
    constructPoolRebalanceLeaves_chain_partition 0
      [(10, [(5, 100), (1, 2), (3, 50), (2, 7), (4, 9)])] []
      (fun _ => 9) (fun _ _ => 10) (some 2) [] (by decide) (by decide) 10,
    by decide, by decide⟩

/-- C10: a chain id with fee entries but no running-balance entry gets no leaf:
leaves are generated only for chain ids present in `runningBalances`, so that
the realized LP fees of that chain appear in no emitted leaf. -/
theorem constructPoolRebalanceLeaves_skips_fee_only_chains (latestMainnetBlock : Nat)
    (runningBalances realizedLpFees : RunningBalances)
    (getMaxRefundCount : Nat → Nat) (getTokenTransferThreshold : Nat → Nat → Int)
    (maxL1TokenCount : Option Nat) (tokenTransferThreshold : TokenMap) (c : Nat)
    (hfees : (lookupChain realizedLpFees c).isSome)
    (hrb : lookupChain runningBalances c = none) :
    ∀ leaf ∈ constructPoolRebalanceLeaves latestMainnetBlock runningBalances
        realizedLpFees getMaxRefundCount getTokenTransferThreshold maxL1TokenCount
        tokenTransferThreshold, leaf.chainId ≠ c := by
  intro leaf hleaf heq
  unfold constructPoolRebalanceLeaves at hleaf
  have hmem := mem_leavesForChains_chainId latestMainnetBlock _ runningBalances
    realizedLpFees getTokenTransferThreshold tokenTransferThreshold _ 0 leaf hleaf
  rw [heq] at hmem
  have hkeys : c ∈ runningBalances.map fun p => p.1 :=
    ((List.perm_insertionSort _ _).mem_iff).mp hmem
  exact (lookupChain_eq_none_iff runningBalances c).mp hrb hkeys

/-- Witness for C10: chain 55 has fees but no running balances, and no emitted
leaf carries chain 55. -/
theorem constructPoolRebalanceLeaves_skips_fee_only_chains_witness :
    (lookupChain [(55, [(1, 3)]), (10, [(1, 11)])] 55).isSome ∧
    lookupChain [(10, [(5, 100), (1, 2)])] 55 = none ∧
    (∀ leaf ∈ constructPoolRebalanceLeaves 0 [(10, [(5, 100), (1, 2)])]
        [(55, [(1, 3)]), (10, [(1, 11)])] (fun _ => 2) (fun _ _ => 10) none [],
      leaf.chainId ≠ 55) :=
  ⟨by decide, by decide,
    constructPoolRebalanceLeaves_skips_fee_only_chains 0 [(10, [(5, 100), (1, 2)])]
      [(55, [(1, 3)]), (10, [(1, 11)])] (fun _ => 2) (fun _ _ => 10) none [] 55
      (by decide) (by decide)⟩
